import Mathlib

/-!
Verification development for arduino-serial.c (the command shell of the
arduino-serial tool).

The shell is embedded shallowly as a state machine over an explicit command
list.  Each command-line option of `main` (src/arduino-serial.c) becomes a
`Cmd` constructor; environment responses that the C program obtains from the
operating system (whether `serialport_init` succeeds, the outcome of each
read, whether each write succeeds, the bytes of a local file) are injected as
parameters of the corresponding constructor.  Running the shell produces a
trace of observable events (`Ev`) plus the process exit status, mirroring the
`exit(EXIT_SUCCESS)` / `error(...)->exit(EXIT_FAILURE)` behaviour of the C
program.

The serial transport library (arduino-serial-lib.c) is not part of src/; the
few facts about it that the claims need are modelled from the spec and are
marked with a doc comment starting with the words Modelled from the spec.
-/

/-- Outcome of one `serialport_read_byte` call on the serial handle, as the
shell observes it: a data byte, a timeout, or an OS error. -/
inductive SRead where
  | data (v : Nat)
  | timeout
  | err
deriving DecidableEq

/-- Outcome of one `serialport_read_byte_file` call in the `-f` file-streaming
loop.  The shell inspects the integer return code: negative means failure
(`rc < 0` branch), 2 means end of file (`rc == 2` branch), 0 means a data
byte was produced (the loop continues while `rc == 0`). -/
inductive FRead where
  | data (v : Nat)
  | eof
  | err
deriving DecidableEq

/-- Observable events of a shell run: calls on the serial handle, calls on a
local output file, and the console output the C code prints unconditionally
(the informational prints that are suppressed by `-q` are not modelled). -/
inductive Ev where
  | openPort (k : Nat) (baud : Int)
  | closePort (k : Nat)
  | flushPort (k : Nat)
  | readSerial (k : Nat) (t : Int)
  | readLine (k : Nat) (eol : Nat) (t : Int)
  | writeByte (k : Nat) (b : Nat)
  | writeFail (k : Nat) (b : Nat)
  | writeStr (k : Nat) (s : List Nat)
  | writeStrFail (k : Nat) (s : List Nat)
  | drainPort (k : Nat)
  | drainStdout
  | readFile (r : FRead)
  | echo (b : Nat)
  | printEof
  | printErr
  | printHex (b : Nat)
  | printStr (s : List Nat)
  | printNoInput
  | printFoundInput
  | openFile
  | openFileFail
  | closeFile
  | fwrite (b : Nat)
  | fwriteFail (b : Nat)
  | drainFile
  | sleepMs (ms : Int)
  | printUsage
deriving DecidableEq

/-- One command-line option given to the shell, with the environment
responses its handler consumes.  `wok`-style parameters give the success of
the successive writes the handler performs. -/
inductive Cmd where
  | help
  | quiet
  | eol (arg : List Nat)
  | timeoutOpt (t : Int)
  | delay (ms : Int)
  | baud (b : Int)
  | port (ok : Bool)
  | num (v : Nat) (wok : Bool)
  | send (str : List Nat) (wok : Bool)
  | sendline (str : List Nat) (wok : Bool)
  | stdinput (ls : List (List Nat)) (wok : Nat → Bool)
  | sendFile (fok : Bool) (reads : List FRead) (wok : Nat → Bool)
  | saveFile (fok : Bool) (first : SRead) (rest : List SRead) (fwok : Nat → Bool)
  | recvByte (o : SRead)
  | recvLine (line : List Nat)
  | flushCmd

/-- Mutable state of `main`: the current descriptor (`fd`, `none` models
`fd == -1`), a counter handing out distinct descriptor values, and the option
variables declared at the top of `main`.  `bBuf` is the `uint8_t b` buffer
shared by the `-f` and `-v` handlers; its initial value is a parameter
because the C variable is uninitialized. -/
structure ShellState where
  fd : Option Nat
  nextFd : Nat
  baudrate : Int
  eolchar : Nat
  timeout : Int
  quiet : Bool
  bBuf : Nat
deriving DecidableEq

/-- Initial values from the declarations in `main` (src/arduino-serial.c
lines 106-114): no port open, baudrate 9600, eolchar newline, timeout 5000,
not quiet; `b0` is the arbitrary content of the uninitialized byte buffer. -/
def initState (b0 : Nat) : ShellState :=
  ⟨none, 0, 9600, 10, 5000, false, b0⟩

/-- Modelled from the spec: `serialport_close` lives in arduino-serial-lib.c,
which is not under src/.  Per the spec's lifecycle section the handle is
always flushed before it is closed, so closing handle `k` emits a flush of
`k` followed by the close of `k`. -/
def serialport_close (k : Nat) : List Ev :=
  [.flushPort k, .closePort k]

/-- Value of the C loop counter `short a` after `i` increments from 0.  The
variable is a 16-bit signed `short` (line 199), so under the targeted gcc
platforms it wraps two's-complement: it runs 0..32767, then -32768..32767,
cyclically with period 65536. -/
def shortOf (i : Nat) : Int :=
  ((i : Int) + 32768) % 65536 - 32768

/-- The `-f` file-streaming loop of `main` (lines 202-235).  Each iteration
reads one byte outcome, echoes the buffer (the C code prints `b` before
inspecting the return code), then dispatches: failure reports and stops;
end-of-file reports, flushes the port once more and stops; a data byte is
written to the port, and when `(a % 60) == 0` both the port and stdout are
drained.  The parameter `a` counts iterations; the C counter is a `short`,
so the drain test is evaluated on the wrapped value `shortOf a` (C's
truncating `%` and Lean's `Int.emod` agree on whether the remainder is
zero).  The loop continues only while the last write returned 0.  Returns
the trace and the final content of the byte buffer. -/
def streamLoop (k : Nat) (wok : Nat → Bool) :
    List FRead → Nat → Nat → List Ev × Nat
  | [], _, b => ([], b)
  | r :: rs, a, b =>
    match r with
    | .err => ([.readFile .err, .echo b, .printErr], b)
    | .eof => ([.readFile .eof, .echo b, .printEof, .flushPort k], b)
    | .data v =>
      let drains := if shortOf a % 60 = 0 then [Ev.drainPort k, Ev.drainStdout] else []
      if wok a then
        let rest := streamLoop k wok rs (a + 1) v
        (Ev.readFile (.data v) :: Ev.echo v :: Ev.writeByte k v :: (drains ++ rest.1),
         rest.2)
      else
        (Ev.readFile (.data v) :: Ev.echo v :: Ev.writeFail k v :: drains, v)

/-- The `-v` save-to-file inner loop of `main` (lines 271-292): read a byte
from the port with a fixed 5000 ms timeout; a non-positive return code drains
the output file and stops; otherwise the byte is written to the output file,
echoed, and when `(a % 60) == 0` the file and stdout are drained.  The loop
reuses the `short a` counter (assigned 1 at line 269), so as in `streamLoop`
the drain test is evaluated on the wrapped value `shortOf a`.  The C loop
condition `rc <= 0` holds after every write (`serialport_writebyte` returns 0
or -1), so only a read outcome ends the loop. -/
def vLoop (k : Nat) (fwok : Nat → Bool) :
    List SRead → Nat → Nat → List Ev × Nat
  | [], _, b => ([], b)
  | o :: os, a, b =>
    match o with
    | .data v =>
      let evw := if fwok a then Ev.fwrite v else Ev.fwriteFail v
      let drains := if shortOf a % 60 = 0 then [Ev.drainFile, Ev.drainStdout] else []
      let rest := vLoop k fwok os (a + 1) v
      (Ev.readSerial k 5000 :: evw :: Ev.echo v :: (drains ++ rest.1), rest.2)
    | _ => ([Ev.readSerial k 5000, Ev.drainFile], b)

/-- Result of one option handler: either terminate the process with a trace
and an exit code (`usage` exits 0, `error` exits 1), or continue with an
updated state and the handler's trace. -/
inductive HRes where
  | exit (t : List Ev) (code : Nat)
  | cont (s : ShellState) (t : List Ev)

/-- One iteration of the option-dispatch `switch` in `main`, one arm per
option.  Handlers that require an open port first test `fd == -1` and call
`error("serial port not opened")` (exit status 1) when it is not open. -/
def shellStep (s : ShellState) : Cmd → HRes
  | .help => .exit [.printUsage] 0
  | .quiet => .cont { s with quiet := true } []
  | .eol arg => .cont { s with eolchar := arg.headD 0 } []
  | .timeoutOpt t => .cont { s with timeout := t } []
  | .delay ms => .cont s [.sleepMs ms]
  | .baud b => .cont { s with baudrate := b } []
  | .port ok =>
    let closeEvs := match s.fd with
      | some j => serialport_close j
      | none => []
    if ok then
      .cont { s with fd := some s.nextFd, nextFd := s.nextFd + 1 }
        (closeEvs ++ [.openPort s.nextFd s.baudrate, .flushPort s.nextFd])
    else
      .exit closeEvs 1
  | .num v wok =>
    match s.fd with
    | none => .exit [] 1
    | some k =>
      if wok then .cont s [.writeByte k (v % 256)]
      else .exit [.writeFail k (v % 256)] 1
  | .send str wok =>
    match s.fd with
    | none => .exit [] 1
    | some k =>
      if wok then .cont s [.writeStr k str]
      else .exit [.writeStrFail k str] 1
  | .sendline str wok =>
    match s.fd with
    | none => .exit [] 1
    | some k =>
      if wok then .cont s [.writeStr k (str ++ [10])]
      else .exit [.writeStrFail k (str ++ [10])] 1
  | .stdinput ls wok =>
    match s.fd with
    | none => .exit [] 1
    | some k =>
      let evs := ls.enum.map
        (fun p => if wok p.1 then Ev.writeStr k p.2 else Ev.writeStrFail k p.2)
      if ls.isEmpty then .exit evs 1
      else if wok (ls.length - 1) then .cont s evs
      else .exit evs 1
  | .sendFile fok reads wok =>
    match s.fd with
    | none => .exit [] 1
    | some k =>
      if fok then
        let r := streamLoop k wok reads 0 s.bBuf
        .cont { s with bBuf := r.2 } (Ev.openFile :: Ev.flushPort k :: r.1)
      else .cont s [.openFileFail]
  | .saveFile fok first rest fwok =>
    match s.fd with
    | none => .exit [] 1
    | some k =>
      if fok then
        match first with
        | .data v =>
          let evw := if fwok 0 then Ev.fwrite v else Ev.fwriteFail v
          let r := vLoop k fwok rest 1 v
          .cont { s with bBuf := r.2 }
            ([Ev.openFile, Ev.readSerial k 5000, Ev.printFoundInput, evw,
              Ev.drainFile] ++ r.1 ++ [Ev.closeFile])
        | _ =>
          .cont s [Ev.openFile, Ev.readSerial k 5000, Ev.printNoInput, Ev.closeFile]
      else .cont s [.openFileFail]
  | .recvByte o =>
    match s.fd with
    | none => .exit [] 1
    | some k =>
      let shown := match o with
        | .data v => v
        | _ => 0
      .cont s [.readSerial k s.timeout, .printHex shown]
  | .recvLine line =>
    match s.fd with
    | none => .exit [] 1
    | some k => .cont s [.readLine k s.eolchar s.timeout, .printStr line]
  | .flushCmd =>
    match s.fd with
    | none => .exit [] 1
    | some k => .cont s [.flushPort k]

/-- Whole shell run: dispatch the options in order; the first handler that
terminates determines the exit status, otherwise the final
`exit(EXIT_SUCCESS)` yields status 0. -/
def runShell (s : ShellState) : List Cmd → List Ev × Nat
  | [] => ([], 0)
  | c :: cs =>
    match shellStep s c with
    | .exit t code => (t, code)
    | .cont s2 t =>
      let r := runShell s2 cs
      (t ++ r.1, r.2)

/-- Modelled from the spec: the return-code convention of
`serialport_read_byte` (arduino-serial-lib.c, not under src/): a positive
code for a received byte, 0 for a timeout, a negative code for an OS error
(the `-v` handler tests `rc <= 0`, the spec requires the three outcomes to be
distinct). -/
def readByteRC : SRead → Int
  | .data _ => 1
  | .timeout => 0
  | .err => -1

/-- Modelled from the spec: read operations of the transport library (not
under src/) use the user-supplied timeout clamped to non-negative
(spec: timeout in milliseconds, default 5000, clamped to non-negative). -/
def clampTimeout (t : Int) : Int := max t 0

/-- Bytes successfully written to the serial port, in trace order. -/
def writesOf : List Ev → List Nat
  | [] => []
  | .writeByte _ b :: t => b :: writesOf t
  | _ :: t => writesOf t

/-- Bytes echoed to the console with `printf percent-c`, in trace order. -/
def echoesOf : List Ev → List Nat
  | [] => []
  | .echo b :: t => b :: echoesOf t
  | _ :: t => echoesOf t

/-- Number of serial-port drain calls (`tcdrain(fd)`) in a trace. -/
def drainPortCount : List Ev → Nat
  | [] => 0
  | .drainPort _ :: t => drainPortCount t + 1
  | _ :: t => drainPortCount t

/-- Number of stdout drain calls (`tcdrain(1)`) in a trace. -/
def drainStdoutCount : List Ev → Nat
  | [] => 0
  | .drainStdout :: t => drainStdoutCount t + 1
  | _ :: t => drainStdoutCount t

/-- Number of end-of-file reports in a trace. -/
def eofCount : List Ev → Nat
  | [] => 0
  | .printEof :: t => eofCount t + 1
  | _ :: t => eofCount t

/-- Number of read-failure reports in a trace. -/
def errCount : List Ev → Nat
  | [] => 0
  | .printErr :: t => errCount t + 1
  | _ :: t => errCount t

/-- Number of file-read calls (`serialport_read_byte_file`) in a trace. -/
def readFileCount : List Ev → Nat
  | [] => 0
  | .readFile _ :: t => readFileCount t + 1
  | _ :: t => readFileCount t

/-- Every serial-port drain is immediately followed by a stdout drain. -/
def drainsPaired : List Ev → Bool
  | [] => true
  | .drainPort _ :: Ev.drainStdout :: t => drainsPaired t
  | .drainPort _ :: _ => false
  | _ :: t => drainsPaired t

/-- Trace of the file streamer over a file whose reads yield the bytes `bs`
followed by a clean end-of-file. -/
def streamTraceOk (k : Nat) (wok : Nat → Bool) (bs : List Nat) (b0 : Nat) :
    List Ev :=
  (streamLoop k wok (bs.map FRead.data ++ [FRead.eof]) 0 b0).1

/-- Trace of the file streamer over a file whose reads yield the bytes `bs`
and then fail. -/
def streamTraceErr (k : Nat) (wok : Nat → Bool) (bs : List Nat) (b0 : Nat) :
    List Ev :=
  (streamLoop k wok (bs.map FRead.data ++ [FRead.err]) 0 b0).1

/-- Does an option handler require an open port (test `fd == -1` and call
`error` otherwise)?  True exactly for the send, receive, flush and
file-streaming options of `main`. -/
def needsPort : Cmd → Bool
  | .num _ _ => true
  | .send _ _ => true
  | .sendline _ _ => true
  | .stdinput _ _ => true
  | .sendFile _ _ _ => true
  | .saveFile _ _ _ _ => true
  | .recvByte _ => true
  | .recvLine _ => true
  | .flushCmd => true
  | _ => false

/-- Recognizer for the end-of-file report event. -/
def isPrintEof : Ev → Bool
  | .printEof => true
  | _ => false

/-- Recognizer for the failed file-read event. -/
def isErrRead : Ev → Bool
  | .readFile .err => true
  | _ => false

/-- Suffix of a trace strictly after the first event satisfying `p`. -/
def afterFirst (p : Ev → Bool) (t : List Ev) : List Ev :=
  (t.dropWhile (fun e => !(p e))).tail

/-- Suffix of a trace from the first event satisfying `p` (inclusive). -/
def fromFirst (p : Ev → Bool) (t : List Ev) : List Ev :=
  t.dropWhile (fun e => !(p e))

/-- Number of iteration indices in the interval from `a` of length `n` whose
wrapped `short` counter value triggers the every-60 drain of the streaming
loop. -/
def drainSlots : Nat → Nat → Nat
  | _, 0 => 0
  | a, n + 1 => (if shortOf a % 60 = 0 then 1 else 0) + drainSlots (a + 1) n

/-- While the `short` counter has not wrapped (at most 32768 iterations in
total), the drain schedule is exactly one drain per 60-byte block. -/
theorem drainSlots_closed : ∀ (n a : Nat), a + n ≤ 32768 →
    drainSlots a n = (a + n + 59) / 60 - (a + 59) / 60 := by
  intro n
  induction n with
  | zero => intro a _; simp [drainSlots]
  | succ m ih =>
    intro a hle
    have hs : shortOf a = (a : Int) := by
      unfold shortOf
      omega
    simp only [drainSlots, ih (a + 1) (by omega), hs]
    by_cases h : (a : Int) % 60 = 0
    · simp only [h, if_true]
      omega
    · simp only [h, if_false]
      omega

theorem writesOf_streamOk (k : Nat) (wok : Nat → Bool) (h : ∀ i, wok i = true) :
    ∀ (bs : List Nat) (a b0 : Nat),
      writesOf (streamLoop k wok (bs.map FRead.data ++ [FRead.eof]) a b0).1 = bs := by
  intro bs
  induction bs with
  | nil => intro a b0; rfl
  | cons v rest ih =>
    intro a b0
    simp only [List.map_cons, List.cons_append, streamLoop, h a, if_true]
    by_cases h60 : shortOf a % 60 = 0
    · simp only [if_pos h60]
      simp [writesOf, ih]
    · simp only [if_neg h60]
      simp [writesOf, ih]

theorem drainPortCount_streamOk (k : Nat) (wok : Nat → Bool)
    (h : ∀ i, wok i = true) :
    ∀ (bs : List Nat) (a b0 : Nat),
      drainPortCount (streamLoop k wok (bs.map FRead.data ++ [FRead.eof]) a b0).1 =
        drainSlots a bs.length := by
  intro bs
  induction bs with
  | nil => intro a b0; rfl
  | cons v rest ih =>
    intro a b0
    simp only [List.map_cons, List.cons_append, streamLoop, h a, if_true]
    simp only [drainSlots]
    by_cases h60 : shortOf a % 60 = 0
    · simp only [if_pos h60]
      simp [drainPortCount, ih]
      try omega
    · simp only [if_neg h60]
      simp [drainPortCount, ih]
      try omega

theorem drainStdoutCount_streamOk (k : Nat) (wok : Nat → Bool)
    (h : ∀ i, wok i = true) :
    ∀ (bs : List Nat) (a b0 : Nat),
      drainStdoutCount (streamLoop k wok (bs.map FRead.data ++ [FRead.eof]) a b0).1 =
        drainSlots a bs.length := by
  intro bs
  induction bs with
  | nil => intro a b0; rfl
  | cons v rest ih =>
    intro a b0
    simp only [List.map_cons, List.cons_append, streamLoop, h a, if_true]
    simp only [drainSlots]
    by_cases h60 : shortOf a % 60 = 0
    · simp only [if_pos h60]
      simp [drainStdoutCount, ih]
      try omega
    · simp only [if_neg h60]
      simp [drainStdoutCount, ih]
      try omega

theorem drainsPaired_streamOk (k : Nat) (wok : Nat → Bool)
    (h : ∀ i, wok i = true) :
    ∀ (bs : List Nat) (a b0 : Nat),
      drainsPaired (streamLoop k wok (bs.map FRead.data ++ [FRead.eof]) a b0).1 = true := by
  intro bs
  induction bs with
  | nil => intro a b0; rfl
  | cons v rest ih =>
    intro a b0
    simp only [List.map_cons, List.cons_append, streamLoop, h a, if_true]
    by_cases h60 : shortOf a % 60 = 0
    · simp only [if_pos h60]
      simp [drainsPaired, ih]
    · simp only [if_neg h60]
      simp [drainsPaired, ih]

theorem eofCount_streamOk (k : Nat) (wok : Nat → Bool)
    (h : ∀ i, wok i = true) :
    ∀ (bs : List Nat) (a b0 : Nat),
      eofCount (streamLoop k wok (bs.map FRead.data ++ [FRead.eof]) a b0).1 = 1 := by
  intro bs
  induction bs with
  | nil => intro a b0; rfl
  | cons v rest ih =>
    intro a b0
    simp only [List.map_cons, List.cons_append, streamLoop, h a, if_true]
    by_cases h60 : shortOf a % 60 = 0
    · simp only [if_pos h60]
      simp [eofCount, ih]
    · simp only [if_neg h60]
      simp [eofCount, ih]

theorem afterEof_streamOk (k : Nat) (wok : Nat → Bool)
    (h : ∀ i, wok i = true) :
    ∀ (bs : List Nat) (a b0 : Nat),
      afterFirst isPrintEof (streamLoop k wok (bs.map FRead.data ++ [FRead.eof]) a b0).1 =
        [Ev.flushPort k] := by
  intro bs
  induction bs with
  | nil => intro a b0; rfl
  | cons v rest ih =>
    intro a b0
    simp only [List.map_cons, List.cons_append, streamLoop, h a, if_true]
    by_cases h60 : shortOf a % 60 = 0
    · simp only [if_pos h60]
      simp [afterFirst, isPrintEof, List.dropWhile] at ih ⊢
      exact ih _ _
    · simp only [if_neg h60]
      simp [afterFirst, isPrintEof, List.dropWhile] at ih ⊢
      exact ih _ _

theorem echoesOf_streamOk (k : Nat) (wok : Nat → Bool)
    (h : ∀ i, wok i = true) :
    ∀ (bs : List Nat) (a b0 : Nat),
      echoesOf (streamLoop k wok (bs.map FRead.data ++ [FRead.eof]) a b0).1 =
        bs ++ [bs.getLastD b0] := by
  intro bs
  induction bs with
  | nil => intro a b0; rfl
  | cons v rest ih =>
    intro a b0
    have hl : (v :: rest).getLastD b0 = rest.getLastD v := List.getLastD_cons b0 v rest
    simp only [List.map_cons, List.cons_append, streamLoop, h a, if_true]
    by_cases h60 : shortOf a % 60 = 0
    · simp only [if_pos h60]
      simp [echoesOf, ih, hl]
      try rw [List.getLast?_cons]
      try simp [← List.getLastD_eq_getLast?]
    · simp only [if_neg h60]
      simp [echoesOf, ih, hl]
      try rw [List.getLast?_cons]
      try simp [← List.getLastD_eq_getLast?]

theorem readFileCount_streamErr (k : Nat) (wok : Nat → Bool)
    (h : ∀ i, wok i = true) :
    ∀ (bs : List Nat) (a b0 : Nat),
      readFileCount (streamLoop k wok (bs.map FRead.data ++ [FRead.err]) a b0).1 =
        bs.length + 1 := by
  intro bs
  induction bs with
  | nil => intro a b0; rfl
  | cons v rest ih =>
    intro a b0
    simp only [List.map_cons, List.cons_append, streamLoop, h a, if_true]
    by_cases h60 : shortOf a % 60 = 0
    · simp only [if_pos h60]
      simp [readFileCount, ih]
      try omega
    · simp only [if_neg h60]
      simp [readFileCount, ih]
      try omega

theorem errCount_streamErr (k : Nat) (wok : Nat → Bool)
    (h : ∀ i, wok i = true) :
    ∀ (bs : List Nat) (a b0 : Nat),
      errCount (streamLoop k wok (bs.map FRead.data ++ [FRead.err]) a b0).1 = 1 := by
  intro bs
  induction bs with
  | nil => intro a b0; rfl
  | cons v rest ih =>
    intro a b0
    simp only [List.map_cons, List.cons_append, streamLoop, h a, if_true]
    by_cases h60 : shortOf a % 60 = 0
    · simp only [if_pos h60]
      simp [errCount, ih]
    · simp only [if_neg h60]
      simp [errCount, ih]

theorem fromErr_streamErr (k : Nat) (wok : Nat → Bool)
    (h : ∀ i, wok i = true) :
    ∀ (bs : List Nat) (a b0 : Nat),
      fromFirst isErrRead (streamLoop k wok (bs.map FRead.data ++ [FRead.err]) a b0).1 =
        [Ev.readFile FRead.err, Ev.echo (bs.getLastD b0), Ev.printErr] := by
  intro bs
  induction bs with
  | nil => intro a b0; rfl
  | cons v rest ih =>
    intro a b0
    have hl : (v :: rest).getLastD b0 = rest.getLastD v := List.getLastD_cons b0 v rest
    rw [hl]
    simp only [List.map_cons, List.cons_append, streamLoop, h a, if_true]
    by_cases h60 : shortOf a % 60 = 0
    · simp only [if_pos h60]
      simp [fromFirst, isErrRead, List.dropWhile] at ih ⊢
      exact ih _ _
    · simp only [if_neg h60]
      simp [fromFirst, isErrRead, List.dropWhile] at ih ⊢
      exact ih _ _

/-- Scan checking that the streamer never lets written bytes accumulate
without draining: `c` counts the serial-port writes since the last serial
drain, and every further write requires `c < 60`, so at most 60 bytes are
ever written between two consecutive serial drains. -/
def drainGapsOk : List Ev → Nat → Bool
  | [], _ => true
  | Ev.writeByte _ _ :: t, c => decide (c < 60) && drainGapsOk t (c + 1)
  | Ev.drainPort _ :: t, _ => drainGapsOk t 0
  | _ :: t, c => drainGapsOk t c

/-- Distance, in loop iterations, from iteration index `i` to the next
iteration whose wrapped `short` counter value is divisible by 60.  Within
one 65536-iteration period the drains sit at counter values 0, 60, ...,
32760 (period positions 0..32760) and -32760, -32700, ..., -60 (period
positions 32776, 32836, ..., 65476); the distance never exceeds 59. -/
def eDistI (i : Nat) : Nat :=
  if i % 65536 ≤ 32760 then (60 - i % 65536 % 60) % 60
  else if i % 65536 ≤ 32767 then 32776 - i % 65536
  else if i % 65536 ≤ 65476 then (76 - i % 65536 % 60) % 60
  else 65536 - i % 65536

theorem eDistI_le (i : Nat) : eDistI i ≤ 59 := by
  have h1 : i % 65536 < 65536 := Nat.mod_lt _ (by norm_num)
  unfold eDistI
  split_ifs <;> omega

theorem eDistI_step (i : Nat) (hnd : ¬ shortOf i % 60 = 0) :
    eDistI i = eDistI (i + 1) + 1 := by
  have h1 : i % 65536 < 65536 := Nat.mod_lt _ (by norm_num)
  have h2 : (i + 1) % 65536 < 65536 := Nat.mod_lt _ (by norm_num)
  have h3 : (i + 1) % 65536 = (i % 65536 + 1) % 65536 := by omega
  unfold shortOf at hnd
  unfold eDistI
  split_ifs <;> omega

theorem drainGaps_stream (k : Nat) (wok : Nat → Bool) (h : ∀ i, wok i = true) :
    ∀ (bs : List Nat) (a c b0 : Nat), c + eDistI a ≤ 59 →
      drainGapsOk (streamLoop k wok (bs.map FRead.data ++ [FRead.eof]) a b0).1 c =
        true := by
  intro bs
  induction bs with
  | nil =>
    intro a c b0 _
    simp [streamLoop, drainGapsOk]
  | cons v rest ih =>
    intro a c b0 hc
    have hcl : c < 60 := by omega
    simp only [List.map_cons, List.cons_append, streamLoop, h a, if_true]
    by_cases h60 : shortOf a % 60 = 0
    · simp only [if_pos h60]
      simp [drainGapsOk, hcl]
      exact ih (a + 1) 0 v (by have := eDistI_le (a + 1); omega)
    · simp only [if_neg h60]
      have hstep := eDistI_step a h60
      simp [drainGapsOk, hcl]
      exact ih (a + 1) (c + 1) v (by omega)

/-- C5: over a file whose reads yield the data bytes `bs` followed by a clean
end-of-file, with all serial writes succeeding, the File Byte Streamer writes
exactly the bytes `bs` to the serial port in order (no loss, no duplication),
and every 60 bytes it forces a drain of both the serial handle and the
console stream: the stdout drain count equals the serial drain count and
each serial drain is immediately followed by the stdout drain (both drained
together), never more than 60 bytes are written between two consecutive
serial drains (`drainGapsOk`, proved for all file sizes), and while the
16-bit `short` iteration counter has not wrapped (files of at most 32768
bytes) the serial handle is drained exactly `(n + 59) / 60` times, once at
the first byte of each 60-byte block.  Beyond 32768 bytes the wrapped
counter shifts the phase of the schedule (the drain test is `(a % 60) == 0`
on the wrapped `short` value), but the every-60-bytes bound still holds. -/
theorem fileStreamer_writes_and_drains (k : Nat) (wok : Nat → Bool)
    (bs : List Nat) (b0 : Nat) (h : ∀ i, wok i = true) :
    writesOf (streamTraceOk k wok bs b0) = bs ∧
    drainStdoutCount (streamTraceOk k wok bs b0) =
      drainPortCount (streamTraceOk k wok bs b0) ∧
    drainsPaired (streamTraceOk k wok bs b0) = true ∧
    drainGapsOk (streamTraceOk k wok bs b0) 0 = true ∧
    (bs.length ≤ 32768 →
      drainPortCount (streamTraceOk k wok bs b0) = (bs.length + 59) / 60) := by
  have hd := drainPortCount_streamOk k wok h bs 0 b0
  have hs := drainStdoutCount_streamOk k wok h bs 0 b0
  refine ⟨writesOf_streamOk k wok h bs 0 b0, ?_,
    drainsPaired_streamOk k wok h bs 0 b0, ?_, ?_⟩
  · simp only [streamTraceOk, hs, hd]
  · exact drainGaps_stream k wok h bs 0 0 b0 (by decide)
  · intro hlen
    have hc := drainSlots_closed bs.length 0 (by omega)
    simp only [streamTraceOk, hd, hc]
    omega

theorem fileStreamer_writes_and_drains_witness :
    writesOf (streamTraceOk 4 (fun _ => true) [1, 2, 3] 7) = [1, 2, 3] ∧
    drainStdoutCount (streamTraceOk 4 (fun _ => true) [1, 2, 3] 7) =
      drainPortCount (streamTraceOk 4 (fun _ => true) [1, 2, 3] 7) ∧
    drainsPaired (streamTraceOk 4 (fun _ => true) [1, 2, 3] 7) = true ∧
    drainGapsOk (streamTraceOk 4 (fun _ => true) [1, 2, 3] 7) 0 = true ∧
    drainPortCount (streamTraceOk 4 (fun _ => true) [1, 2, 3] 7) =
      (([1, 2, 3] : List Nat).length + 59) / 60 :=
  have hm := fileStreamer_writes_and_drains 4 (fun _ => true) [1, 2, 3] 7 (fun _ => rfl)
  ⟨hm.1, hm.2.1, hm.2.2.1, hm.2.2.2.1, hm.2.2.2.2 (by decide)⟩

/-- C6: when the per-byte read reports end-of-file, the streamer reports
end-of-file exactly once, and everything in the trace after that report is
exactly one more flush of the serial handle: the loop stops cleanly and no
further byte is written to the port. -/
theorem fileStreamer_eof_once (k : Nat) (wok : Nat → Bool) (bs : List Nat)
    (b0 : Nat) (h : ∀ i, wok i = true) :
    eofCount (streamTraceOk k wok bs b0) = 1 ∧
    afterFirst isPrintEof (streamTraceOk k wok bs b0) = [Ev.flushPort k] := by
  exact ⟨eofCount_streamOk k wok h bs 0 b0, afterEof_streamOk k wok h bs 0 b0⟩

theorem fileStreamer_eof_once_witness :
    eofCount (streamTraceOk 4 (fun _ => true) [1, 2, 3] 7) = 1 ∧
    afterFirst isPrintEof (streamTraceOk 4 (fun _ => true) [1, 2, 3] 7) =
      [Ev.flushPort 4] :=
  fileStreamer_eof_once 4 (fun _ => true) [1, 2, 3] 7 (fun _ => rfl)

/-- C7: when the per-byte read reports a failure, the streamer performs
exactly one file read per transferred byte plus the single failed read (no
retry of the failed read), reports the failure exactly once, and from the
failed read onwards the trace holds only the echo of the stale buffer and the
failure report: it stops immediately. -/
theorem fileStreamer_read_failure (k : Nat) (wok : Nat → Bool) (bs : List Nat)
    (b0 : Nat) (h : ∀ i, wok i = true) :
    readFileCount (streamTraceErr k wok bs b0) = bs.length + 1 ∧
    errCount (streamTraceErr k wok bs b0) = 1 ∧
    fromFirst isErrRead (streamTraceErr k wok bs b0) =
      [Ev.readFile FRead.err, Ev.echo (bs.getLastD b0), Ev.printErr] := by
  exact ⟨readFileCount_streamErr k wok h bs 0 b0,
    errCount_streamErr k wok h bs 0 b0, fromErr_streamErr k wok h bs 0 b0⟩

theorem fileStreamer_read_failure_witness :
    readFileCount (streamTraceErr 4 (fun _ => true) [9, 8] 7) =
      ([9, 8] : List Nat).length + 1 ∧
    errCount (streamTraceErr 4 (fun _ => true) [9, 8] 7) = 1 ∧
    fromFirst isErrRead (streamTraceErr 4 (fun _ => true) [9, 8] 7) =
      [Ev.readFile FRead.err, Ev.echo (([9, 8] : List Nat).getLastD 7), Ev.printErr] :=
  fileStreamer_read_failure 4 (fun _ => true) [9, 8] 7 (fun _ => rfl)

/-- C9: the streamer echoes the buffer before inspecting the read outcome, so
over a file with data bytes `bs` the echoed bytes are `bs` followed by one
extra echo of the last data byte (or of the uninitialized buffer content `b0`
when the file is empty), while only the bytes `bs` themselves are written to
the serial port. -/
theorem fileStreamer_extra_echo (k : Nat) (wok : Nat → Bool) (bs : List Nat)
    (b0 : Nat) (h : ∀ i, wok i = true) :
    echoesOf (streamTraceOk k wok bs b0) = bs ++ [bs.getLastD b0] ∧
    writesOf (streamTraceOk k wok bs b0) = bs := by
  exact ⟨echoesOf_streamOk k wok h bs 0 b0, writesOf_streamOk k wok h bs 0 b0⟩

theorem fileStreamer_extra_echo_witness :
    echoesOf (streamTraceOk 4 (fun _ => true) [] 7) =
      ([] : List Nat) ++ [([] : List Nat).getLastD 7] ∧
    writesOf (streamTraceOk 4 (fun _ => true) [] 7) = [] :=
  fileStreamer_extra_echo 4 (fun _ => true) [] 7 (fun _ => rfl)

/-- C8: only the first byte of the -e argument becomes the end-of-line
sentinel: the handler stores `optarg[0]`, a subsequent -r line read uses
exactly that byte, and the whole run is unchanged when the remaining
characters of the argument are replaced by anything else. -/
theorem eolchar_first_byte_only (s : ShellState) (k c : Nat)
    (rest rest2 line : List Nat) (cs : List Cmd) (hfd : s.fd = some k) :
    (runShell s (Cmd.eol (c :: rest) :: Cmd.recvLine line :: cs)).1.take 2 =
      [Ev.readLine k c s.timeout, Ev.printStr line] ∧
    runShell s (Cmd.eol (c :: rest) :: cs) =
      runShell s (Cmd.eol (c :: rest2) :: cs) := by
  constructor
  · simp [runShell, shellStep, hfd]
  · simp [runShell, shellStep]

theorem eolchar_first_byte_only_witness :
    (runShell ⟨some 3, 4, 9600, 10, 700, false, 0⟩
        (Cmd.eol (59 :: [88]) :: Cmd.recvLine [104, 105] :: [])).1.take 2 =
      [Ev.readLine 3 59 700, Ev.printStr [104, 105]] ∧
    runShell ⟨some 3, 4, 9600, 10, 700, false, 0⟩ (Cmd.eol (59 :: [88]) :: []) =
      runShell ⟨some 3, 4, 9600, 10, 700, false, 0⟩ (Cmd.eol (59 :: [77]) :: []) :=
  eolchar_first_byte_only _ 3 59 [88] [77] [104, 105] [] rfl

/-- C4: the read timeout defaults to 5000 milliseconds (the initial state of
`main`), a user-supplied -t value reaches the read operation unchanged (the
read call carries exactly the user value), and the transport library uses the
timeout clamped to non-negative (`clampTimeout`, modelled from the spec). -/
theorem timeout_default_and_clamp :
    (∀ b0, (initState b0).timeout = 5000) ∧
    (∀ (s : ShellState) (k : Nat) (t : Int) (o : SRead) (cs : List Cmd),
      s.fd = some k →
      (runShell s (Cmd.timeoutOpt t :: Cmd.recvByte o :: cs)).1.take 1 =
        [Ev.readSerial k t]) ∧
    (∀ t : Int, 0 ≤ clampTimeout t ∧ (0 ≤ t → clampTimeout t = t)) := by
  refine ⟨fun _ => rfl, ?_, ?_⟩
  · intro s k t o cs hfd
    simp [runShell, shellStep, hfd]
  · intro t
    exact ⟨le_max_right t 0, fun ht => max_eq_left ht⟩

theorem timeout_default_and_clamp_witness :
    (runShell ⟨some 3, 4, 9600, 10, 5000, false, 0⟩
        [Cmd.timeoutOpt (-250), Cmd.recvByte SRead.timeout]).1.take 1 =
      [Ev.readSerial 3 (-250)] ∧
    0 ≤ clampTimeout 77 ∧ clampTimeout 77 = 77 :=
  ⟨timeout_default_and_clamp.2.1 _ 3 (-250) SRead.timeout [] rfl,
   (timeout_default_and_clamp.2.2 77).1,
   (timeout_default_and_clamp.2.2 77).2 (by decide)⟩

/-- C2 counterexample: at the public interface the -y receive-byte operation
does not distinguish a timed-out read from a successfully received 0x00
byte: the complete observable result of the run (event trace and exit
status) is identical in the two cases, because the handler ignores the read
return code and prints the zero-initialized buffer
(src/arduino-serial.c lines 315-321). -/
theorem recvByte_collapses_timeout :
    runShell (initState 0) [Cmd.port true, Cmd.recvByte (SRead.data 0)] =
      runShell (initState 0) [Cmd.port true, Cmd.recvByte SRead.timeout] := by
  rfl

/-- C2 amended: the Byte Reader's return code (modelled from the spec)
distinguishes data, timeout and error pairwise, and the -v handler's console
output does distinguish a timed-out first read from received data; the
collapse exhibited by the counterexample is the -y printout, which renders a
timeout identically to a received 0x00 byte. -/
theorem read_outcomes_distinguishable :
    (∀ v, readByteRC (SRead.data v) ≠ readByteRC SRead.timeout ∧
      readByteRC SRead.err ≠ readByteRC SRead.timeout ∧
      readByteRC SRead.err ≠ readByteRC (SRead.data v)) ∧
    (∀ (s : ShellState) (k v : Nat) (rest : List SRead) (fwok : Nat → Bool)
      (cs : List Cmd), s.fd = some k →
      (runShell s (Cmd.saveFile true (SRead.data v) rest fwok :: cs)).1 ≠
        (runShell s (Cmd.saveFile true SRead.timeout rest fwok :: cs)).1) := by
  constructor
  · intro v
    exact ⟨by simp [readByteRC], by simp [readByteRC], by simp [readByteRC]⟩
  · intro s k v rest fwok cs hfd heq
    simp [runShell, shellStep, hfd] at heq

theorem read_outcomes_distinguishable_witness :
    (readByteRC (SRead.data 0) ≠ readByteRC SRead.timeout ∧
      readByteRC SRead.err ≠ readByteRC SRead.timeout ∧
      readByteRC SRead.err ≠ readByteRC (SRead.data 0)) ∧
    (runShell ⟨some 3, 4, 9600, 10, 5000, false, 0⟩
        [Cmd.saveFile true (SRead.data 5) [] (fun _ => true)]).1 ≠
      (runShell ⟨some 3, 4, 9600, 10, 5000, false, 0⟩
        [Cmd.saveFile true SRead.timeout [] (fun _ => true)]).1 :=
  ⟨read_outcomes_distinguishable.1 0,
   read_outcomes_distinguishable.2 _ 3 5 [] (fun _ => true) [] rfl⟩

/-- C1 counterexample: a serial write failure during -f file streaming does
not terminate the process with status 1.  The loop merely stops
(`while (rc == 0)` fails), the handler finishes normally, and the process
exits 0, although the trace records the failed write. -/
theorem streamWriteFailure_exits_zero :
    (runShell (initState 0)
      [Cmd.port true,
       Cmd.sendFile true [FRead.data 65, FRead.data 66] (fun _ => false)]).2 = 0 ∧
    Ev.writeFail 0 65 ∈
      (runShell (initState 0)
        [Cmd.port true,
         Cmd.sendFile true [FRead.data 65, FRead.data 66] (fun _ => false)]).1 := by
  exact ⟨rfl, by decide⟩

/-- C1 amended: the process exits 0 after printing help and on normal
completion of the option list; it exits 1 when a send, receive, flush or
stream operation runs before a port is open, when a port open fails, and
when a write fails in the -n, -s and -S handlers.  A serial write failure
inside the -f streaming loop, however, does not terminate the process (see
the counterexample), so a run containing such a failure can still exit 0. -/
theorem exit_status_policy :
    (∀ (s : ShellState) (cs : List Cmd), (runShell s (Cmd.help :: cs)).2 = 0) ∧
    (∀ (s : ShellState) (c : Cmd) (cs : List Cmd),
      needsPort c = true → s.fd = none → (runShell s (c :: cs)).2 = 1) ∧
    (∀ (s : ShellState) (cs : List Cmd), (runShell s (Cmd.port false :: cs)).2 = 1) ∧
    (∀ (s : ShellState) (k v : Nat) (cs : List Cmd), s.fd = some k →
      (runShell s (Cmd.num v false :: cs)).2 = 1) ∧
    (∀ (s : ShellState) (k : Nat) (str : List Nat) (cs : List Cmd),
      s.fd = some k → (runShell s (Cmd.send str false :: cs)).2 = 1) ∧
    (∀ (s : ShellState) (k : Nat) (str : List Nat) (cs : List Cmd),
      s.fd = some k → (runShell s (Cmd.sendline str false :: cs)).2 = 1) ∧
    (∀ s : ShellState, (runShell s []).2 = 0) := by
  refine ⟨?_, ?_, ?_, ?_, ?_, ?_, fun s => rfl⟩
  · intro s cs
    simp [runShell, shellStep]
  · intro s c cs hc hfd
    cases c <;> simp [needsPort] at hc <;> simp [runShell, shellStep, hfd]
  · intro s cs
    cases hfd : s.fd <;> simp [runShell, shellStep, hfd, serialport_close]
  · intro s k v cs hfd
    simp [runShell, shellStep, hfd]
  · intro s k str cs hfd
    simp [runShell, shellStep, hfd]
  · intro s k str cs hfd
    simp [runShell, shellStep, hfd]

theorem exit_status_policy_witness :
    needsPort Cmd.flushCmd = true ∧
    (runShell (initState 0) [Cmd.flushCmd]).2 = 1 ∧
    (runShell ⟨some 3, 4, 9600, 10, 5000, false, 0⟩ [Cmd.num 7 false]).2 = 1 ∧
    (runShell ⟨some 3, 4, 9600, 10, 5000, false, 0⟩ [Cmd.send [72] false]).2 = 1 ∧
    (runShell ⟨some 3, 4, 9600, 10, 5000, false, 0⟩ [Cmd.sendline [72] false]).2 = 1 :=
  ⟨rfl, exit_status_policy.2.1 (initState 0) Cmd.flushCmd [] rfl rfl,
   exit_status_policy.2.2.2.1 _ 3 7 [] rfl,
   exit_status_policy.2.2.2.2.1 _ 3 [72] [] rfl,
   exit_status_policy.2.2.2.2.2.1 _ 3 [72] [] rfl⟩

/-- Recognizer for serial-port open events. -/
def isOpenEv : Ev → Bool
  | .openPort _ _ => true
  | _ => false

/-- Recognizer for serial-port close events. -/
def isCloseEv : Ev → Bool
  | .closePort _ => true
  | _ => false

/-- True when a trace opens and closes no serial port. -/
def noOC : List Ev → Bool
  | [] => true
  | e :: t => !(isOpenEv e) && !(isCloseEv e) && noOC t

theorem noOC_append : ∀ t1 t2 : List Ev, noOC (t1 ++ t2) = (noOC t1 && noOC t2) := by
  intro t1 t2
  induction t1 with
  | nil => simp [noOC]
  | cons e t ih => simp [noOC, ih, Bool.and_assoc]

theorem streamLoop_noOC (k : Nat) (wok : Nat → Bool) :
    ∀ (reads : List FRead) (a b : Nat), noOC (streamLoop k wok reads a b).1 = true := by
  intro reads
  induction reads with
  | nil => intro a b; rfl
  | cons r rs ih =>
    intro a b
    cases r with
    | err => rfl
    | eof => rfl
    | data v =>
      simp only [streamLoop]
      by_cases h60 : shortOf a % 60 = 0
      · simp only [if_pos h60]
        by_cases hw : wok a <;>
          simp [hw, noOC, noOC_append, isOpenEv, isCloseEv, ih]
      · simp only [if_neg h60]
        by_cases hw : wok a <;>
          simp [hw, noOC, noOC_append, isOpenEv, isCloseEv, ih]

theorem vLoop_noOC (k : Nat) (fwok : Nat → Bool) :
    ∀ (os : List SRead) (a b : Nat), noOC (vLoop k fwok os a b).1 = true := by
  intro os
  induction os with
  | nil => intro a b; rfl
  | cons o os2 ih =>
    intro a b
    cases o with
    | data v =>
      simp only [vLoop]
      by_cases h60 : shortOf a % 60 = 0
      · simp only [if_pos h60]
        by_cases hw : fwok a <;>
          simp [hw, noOC, noOC_append, isOpenEv, isCloseEv, ih]
      · simp only [if_neg h60]
        by_cases hw : fwok a <;>
          simp [hw, noOC, noOC_append, isOpenEv, isCloseEv, ih]
    | timeout => rfl
    | err => rfl

theorem stdin_evs_noOC (k : Nat) (wok : Nat → Bool) :
    ∀ l : List (Nat × List Nat),
      noOC (l.map (fun p =>
        if wok p.1 then Ev.writeStr k p.2 else Ev.writeStrFail k p.2)) = true := by
  intro l
  induction l with
  | nil => rfl
  | cons p ps ih =>
    by_cases hw : wok p.1 <;> simp [noOC, isOpenEv, isCloseEv, hw, ih]

/-- Scan state auditing the serial-handle lifecycle along a trace: `live` is
the set of handles opened and not yet closed, `lastFlush` remembers whether
the immediately preceding event was a flush (and of which handle), and `ok`
records that so far every open happened with no live handle and every close
was immediately preceded by a flush of the same handle. -/
structure PortScan where
  live : List Nat
  lastFlush : Option Nat
  ok : Bool

/-- One audit step: an open requires the live set to be empty; a close
requires the immediately preceding event to be a flush of the same handle
and removes it from the live set; any other event clears the
flushed-just-now marker (a flush sets it). -/
def portScanStep (st : PortScan) (e : Ev) : PortScan :=
  match e with
  | .openPort k _ => ⟨k :: st.live, none, st.ok && st.live.isEmpty⟩
  | .closePort k => ⟨st.live.erase k, none, st.ok && (st.lastFlush == some k)⟩
  | .flushPort j => ⟨st.live, some j, st.ok⟩
  | _ => ⟨st.live, none, st.ok⟩

/-- Live-handle list corresponding to the shell's `fd` variable. -/
def fdLive : Option Nat → List Nat
  | none => []
  | some k => [k]

theorem portScan_fold_noOC : ∀ (t : List Ev) (st : PortScan), noOC t = true →
    (t.foldl portScanStep st).ok = st.ok ∧ (t.foldl portScanStep st).live = st.live := by
  intro t
  induction t with
  | nil => intro st _; exact ⟨rfl, rfl⟩
  | cons e t2 ih =>
    intro st h
    have h2 : (isOpenEv e = false ∧ isCloseEv e = false) ∧ noOC t2 = true := by
      simpa [noOC, Bool.and_eq_true, Bool.not_eq_true'] using h
    rw [List.foldl_cons]
    have hstep : (portScanStep st e).ok = st.ok ∧ (portScanStep st e).live = st.live := by
      cases e <;> simp [portScanStep, isOpenEv, isCloseEv] at h2 ⊢
    obtain ⟨ho, hl⟩ := ih (portScanStep st e) h2.2
    exact ⟨ho.trans hstep.1, hl.trans hstep.2⟩

theorem portScan_run : ∀ (cmds : List Cmd) (s : ShellState) (st : PortScan),
    st.ok = true → st.live = fdLive s.fd →
    ((runShell s cmds).1.foldl portScanStep st).ok = true := by
  intro cmds
  induction cmds with
  | nil =>
    intro s st hok _
    simpa [runShell] using hok
  | cons c cs ih =>
    intro s st hok hlive
    have key : ∀ (t : List Ev) (s2 : ShellState) (st2 : PortScan), noOC t = true →
        st2.ok = true → st2.live = fdLive s2.fd →
        ((t ++ (runShell s2 cs).1).foldl portScanStep st2).ok = true := by
      intro t s2 st2 hno hok2 hlive2
      rw [List.foldl_append]
      obtain ⟨ho, hl⟩ := portScan_fold_noOC t st2 hno
      exact ih s2 _ (ho.trans hok2) (hl.trans hlive2)
    cases c with
    | help =>
      simpa [runShell, shellStep, portScanStep] using hok
    | quiet =>
      simp only [runShell, shellStep]
      exact key [] _ st rfl hok hlive
    | eol arg =>
      simp only [runShell, shellStep]
      exact key [] _ st rfl hok hlive
    | timeoutOpt t =>
      simp only [runShell, shellStep]
      exact key [] _ st rfl hok hlive
    | delay ms =>
      simp only [runShell, shellStep]
      exact key [Ev.sleepMs ms] _ st rfl hok hlive
    | baud b =>
      simp only [runShell, shellStep]
      exact key [] _ st rfl hok hlive
    | port pok =>
      cases pok with
      | false =>
        cases hfd : s.fd with
        | none => simpa [runShell, shellStep, hfd] using hok
        | some j =>
          simpa [runShell, shellStep, hfd, serialport_close, portScanStep] using hok
      | true =>
        cases hfd : s.fd with
        | none =>
          rw [hfd] at hlive
          simp only [fdLive] at hlive
          simp only [runShell, shellStep, hfd, List.nil_append, List.cons_append,
            List.foldl_cons]
          refine ih _ _ ?_ ?_
          · simp [portScanStep, hok, hlive]
          · simp [portScanStep, hlive, fdLive]
        | some j =>
          rw [hfd] at hlive
          simp only [fdLive] at hlive
          simp only [runShell, shellStep, hfd, serialport_close, List.cons_append,
            List.nil_append, List.foldl_cons]
          refine ih _ _ ?_ ?_
          · simp [portScanStep, hok, hlive]
          · simp [portScanStep, hlive, fdLive]
    | num v wok =>
      cases hfd : s.fd with
      | none => simpa [runShell, shellStep, hfd] using hok
      | some k =>
        cases wok with
        | true =>
          simp only [runShell, shellStep, hfd]
          exact key [Ev.writeByte k (v % 256)] _ st rfl hok hlive
        | false =>
          simpa [runShell, shellStep, hfd, portScanStep] using hok
    | send str wok =>
      cases hfd : s.fd with
      | none => simpa [runShell, shellStep, hfd] using hok
      | some k =>
        cases wok with
        | true =>
          simp only [runShell, shellStep, hfd]
          exact key [Ev.writeStr k str] _ st rfl hok hlive
        | false =>
          simpa [runShell, shellStep, hfd, portScanStep] using hok
    | sendline str wok =>
      cases hfd : s.fd with
      | none => simpa [runShell, shellStep, hfd] using hok
      | some k =>
        cases wok with
        | true =>
          simp only [runShell, shellStep, hfd]
          exact key [Ev.writeStr k (str ++ [10])] _ st rfl hok hlive
        | false =>
          simpa [runShell, shellStep, hfd, portScanStep] using hok
    | stdinput ls wok =>
      cases hfd : s.fd with
      | none => simpa [runShell, shellStep, hfd] using hok
      | some k =>
        have hno := stdin_evs_noOC k wok ls.enum
        by_cases hemp : ls.isEmpty
        · simp only [runShell, shellStep, hfd, hemp, if_true]
          exact ((portScan_fold_noOC _ st hno).1).trans hok
        · by_cases hlast : wok (ls.length - 1)
          · simp only [runShell, shellStep, hfd]
            simp only [hemp, hlast, if_true, if_false, Bool.false_eq_true]
            exact key _ _ st hno hok hlive
          · simp only [runShell, shellStep, hfd]
            simp only [hemp, hlast, if_true, if_false, Bool.false_eq_true]
            exact ((portScan_fold_noOC _ st hno).1).trans hok
    | sendFile fok reads wok =>
      cases hfd : s.fd with
      | none => simpa [runShell, shellStep, hfd] using hok
      | some k =>
        cases fok with
        | false =>
          simp only [runShell, shellStep, hfd, Bool.false_eq_true, if_false]
          exact key [Ev.openFileFail] _ st rfl hok hlive
        | true =>
          rw [hfd] at hlive
          simp only [runShell, shellStep, hfd, if_true]
          refine key _ _ st ?_ hok hlive
          simp [noOC, isOpenEv, isCloseEv, streamLoop_noOC]
    | saveFile fok first rest fwok =>
      cases hfd : s.fd with
      | none => simpa [runShell, shellStep, hfd] using hok
      | some k =>
        cases fok with
        | false =>
          simp only [runShell, shellStep, hfd, Bool.false_eq_true, if_false]
          exact key [Ev.openFileFail] _ st rfl hok hlive
        | true =>
          cases first with
          | data v =>
            rw [hfd] at hlive
            simp only [runShell, shellStep, hfd, if_true]
            refine key _ _ st ?_ hok hlive
            by_cases hw : fwok 0 <;>
              simp [noOC, noOC_append, isOpenEv, isCloseEv, hw, vLoop_noOC]
          | timeout =>
            simp only [runShell, shellStep, hfd, if_true]
            exact key _ _ st rfl hok hlive
          | err =>
            simp only [runShell, shellStep, hfd, if_true]
            exact key _ _ st rfl hok hlive
    | recvByte o =>
      cases hfd : s.fd with
      | none => simpa [runShell, shellStep, hfd] using hok
      | some k =>
        simp only [runShell, shellStep, hfd]
        refine key _ _ st ?_ hok hlive
        cases o <;> simp [noOC, isOpenEv, isCloseEv]
    | recvLine line =>
      cases hfd : s.fd with
      | none => simpa [runShell, shellStep, hfd] using hok
      | some k =>
        simp only [runShell, shellStep, hfd]
        exact key _ _ st rfl hok hlive
    | flushCmd =>
      cases hfd : s.fd with
      | none => simpa [runShell, shellStep, hfd] using hok
      | some k =>
        simp only [runShell, shellStep, hfd]
        exact key [Ev.flushPort k] _ st rfl hok hlive

/-- C3: along the trace of any shell run from the initial state, the
handle-lifecycle audit succeeds: every port open happens with no live handle
(the prior handle, when one was live, has already been closed), every close
is immediately preceded by a flush of the same handle (the modelled
`serialport_close` flushes before closing), and consequently at most one
serial handle is ever live. -/
theorem single_live_handle (cmds : List Cmd) (b0 : Nat) :
    ((runShell (initState b0) cmds).1.foldl portScanStep ⟨[], none, true⟩).ok = true :=
  portScan_run cmds (initState b0) ⟨[], none, true⟩ rfl rfl

/-- Scan state auditing that each opened handle is flushed before any other
handle operation: `pending` holds a freshly opened handle that has not yet
been flushed, `ok` records that so far the first handle operation after
every open was a flush of the newly opened handle. -/
structure FlushScan where
  pending : Option Nat
  ok : Bool

/-- True for events that operate on a serial handle (console and local-file
events are not handle operations). -/
def isHandleOp : Ev → Bool
  | .openPort _ _ => true
  | .closePort _ => true
  | .flushPort _ => true
  | .readSerial _ _ => true
  | .readLine _ _ _ => true
  | .writeByte _ _ => true
  | .writeFail _ _ => true
  | .writeStr _ _ => true
  | .writeStrFail _ _ => true
  | .drainPort _ => true
  | _ => false

/-- One audit step: after an open, the next handle operation must be a flush
of the opened handle. -/
def flushScanStep (st : FlushScan) (e : Ev) : FlushScan :=
  if isHandleOp e then
    match st.pending with
    | some k => ⟨none, st.ok && (e == Ev.flushPort k)⟩
    | none =>
      match e with
      | .openPort k _ => ⟨some k, st.ok⟩
      | _ => ⟨none, st.ok⟩
  else st

theorem flushScan_fold_noOC : ∀ (t : List Ev) (ok : Bool), noOC t = true →
    t.foldl flushScanStep ⟨none, ok⟩ = ⟨none, ok⟩ := by
  intro t
  induction t with
  | nil => intro ok _; rfl
  | cons e t2 ih =>
    intro ok h
    have h2 : (isOpenEv e = false ∧ isCloseEv e = false) ∧ noOC t2 = true := by
      simpa [noOC, Bool.and_eq_true, Bool.not_eq_true'] using h
    rw [List.foldl_cons]
    have hstep : flushScanStep ⟨none, ok⟩ e = ⟨none, ok⟩ := by
      cases e <;> simp [flushScanStep, isHandleOp, isOpenEv] at h2 ⊢
    rw [hstep]
    exact ih ok h2.2

theorem flushScan_run : ∀ (cmds : List Cmd) (s : ShellState),
    ((runShell s cmds).1.foldl flushScanStep ⟨none, true⟩).ok = true := by
  intro cmds
  induction cmds with
  | nil => intro s; rfl
  | cons c cs ih =>
    intro s
    have key : ∀ (t : List Ev) (s2 : ShellState), noOC t = true →
        ((t ++ (runShell s2 cs).1).foldl flushScanStep ⟨none, true⟩).ok = true := by
      intro t s2 hno
      rw [List.foldl_append, flushScan_fold_noOC t true hno]
      exact ih s2
    cases c with
    | help => rfl
    | quiet =>
      simp only [runShell, shellStep]
      exact key [] _ rfl
    | eol arg =>
      simp only [runShell, shellStep]
      exact key [] _ rfl
    | timeoutOpt t =>
      simp only [runShell, shellStep]
      exact key [] _ rfl
    | delay ms =>
      simp only [runShell, shellStep]
      exact key [Ev.sleepMs ms] _ rfl
    | baud b =>
      simp only [runShell, shellStep]
      exact key [] _ rfl
    | port pok =>
      cases pok with
      | false =>
        cases hfd : s.fd with
        | none => simp [runShell, shellStep, hfd]
        | some j => simp [runShell, shellStep, hfd, serialport_close, flushScanStep, isHandleOp]
      | true =>
        cases hfd : s.fd with
        | none =>
          simp only [runShell, shellStep, hfd, eq_self_iff_true, if_true,
            List.nil_append, List.cons_append, List.foldl_cons]
          have h1 : flushScanStep ⟨none, true⟩ (Ev.openPort s.nextFd s.baudrate) =
              ⟨some s.nextFd, true⟩ := rfl
          have h2 : flushScanStep ⟨some s.nextFd, true⟩ (Ev.flushPort s.nextFd) =
              ⟨none, true⟩ := by
            simp [flushScanStep, isHandleOp]
          rw [h1, h2]
          exact ih _
        | some j =>
          simp only [runShell, shellStep, hfd, serialport_close, eq_self_iff_true,
            if_true, List.cons_append, List.nil_append, List.foldl_cons]
          have h0 : flushScanStep ⟨none, true⟩ (Ev.flushPort j) = ⟨none, true⟩ := rfl
          have h0b : flushScanStep ⟨none, true⟩ (Ev.closePort j) = ⟨none, true⟩ := rfl
          have h1 : flushScanStep ⟨none, true⟩ (Ev.openPort s.nextFd s.baudrate) =
              ⟨some s.nextFd, true⟩ := rfl
          have h2 : flushScanStep ⟨some s.nextFd, true⟩ (Ev.flushPort s.nextFd) =
              ⟨none, true⟩ := by
            simp [flushScanStep, isHandleOp]
          rw [h0, h0b, h1, h2]
          exact ih _
    | num v wok =>
      cases hfd : s.fd with
      | none => simp [runShell, shellStep, hfd]
      | some k =>
        cases wok with
        | true =>
          simp only [runShell, shellStep, hfd]
          exact key [Ev.writeByte k (v % 256)] _ rfl
        | false =>
          simp [runShell, shellStep, hfd, flushScanStep, isHandleOp]
    | send str wok =>
      cases hfd : s.fd with
      | none => simp [runShell, shellStep, hfd]
      | some k =>
        cases wok with
        | true =>
          simp only [runShell, shellStep, hfd]
          exact key [Ev.writeStr k str] _ rfl
        | false =>
          simp [runShell, shellStep, hfd, flushScanStep, isHandleOp]
    | sendline str wok =>
      cases hfd : s.fd with
      | none => simp [runShell, shellStep, hfd]
      | some k =>
        cases wok with
        | true =>
          simp only [runShell, shellStep, hfd]
          exact key [Ev.writeStr k (str ++ [10])] _ rfl
        | false =>
          simp [runShell, shellStep, hfd, flushScanStep, isHandleOp]
    | stdinput ls wok =>
      cases hfd : s.fd with
      | none => simp [runShell, shellStep, hfd]
      | some k =>
        have hno := stdin_evs_noOC k wok ls.enum
        by_cases hemp : ls.isEmpty
        · simp only [runShell, shellStep, hfd, hemp, if_true]
          rw [flushScan_fold_noOC _ true hno]
        · by_cases hlast : wok (ls.length - 1)
          · simp only [runShell, shellStep, hfd]
            simp only [hemp, hlast, if_true, if_false, Bool.false_eq_true]
            exact key _ _ hno
          · simp only [runShell, shellStep, hfd]
            simp only [hemp, hlast, if_true, if_false, Bool.false_eq_true]
            rw [flushScan_fold_noOC _ true hno]
    | sendFile fok reads wok =>
      cases hfd : s.fd with
      | none => simp [runShell, shellStep, hfd]
      | some k =>
        cases fok with
        | false =>
          simp only [runShell, shellStep, hfd, Bool.false_eq_true, if_false]
          exact key [Ev.openFileFail] _ rfl
        | true =>
          simp only [runShell, shellStep, hfd, if_true]
          refine key _ _ ?_
          simp [noOC, isOpenEv, isCloseEv, streamLoop_noOC]
    | saveFile fok first rest fwok =>
      cases hfd : s.fd with
      | none => simp [runShell, shellStep, hfd]
      | some k =>
        cases fok with
        | false =>
          simp only [runShell, shellStep, hfd, Bool.false_eq_true, if_false]
          exact key [Ev.openFileFail] _ rfl
        | true =>
          cases first with
          | data v =>
            simp only [runShell, shellStep, hfd, if_true]
            refine key _ _ ?_
            by_cases hw : fwok 0 <;>
              simp [noOC, noOC_append, isOpenEv, isCloseEv, hw, vLoop_noOC]
          | timeout =>
            simp only [runShell, shellStep, hfd, if_true]
            exact key _ _ rfl
          | err =>
            simp only [runShell, shellStep, hfd, if_true]
            exact key _ _ rfl
    | recvByte o =>
      cases hfd : s.fd with
      | none => simp [runShell, shellStep, hfd]
      | some k =>
        simp only [runShell, shellStep, hfd]
        refine key _ _ ?_
        cases o <;> simp [noOC, isOpenEv, isCloseEv]
    | recvLine line =>
      cases hfd : s.fd with
      | none => simp [runShell, shellStep, hfd]
      | some k =>
        simp only [runShell, shellStep, hfd]
        exact key _ _ rfl
    | flushCmd =>
      cases hfd : s.fd with
      | none => simp [runShell, shellStep, hfd]
      | some k =>
        simp only [runShell, shellStep, hfd]
        exact key [Ev.flushPort k] _ rfl

/-- C10: along the trace of any shell run, every successful port open is
immediately followed, among the operations touching a serial handle, by a
flush of the newly opened handle (`serialport_flush(fd)` right after
`serialport_init`), so no other operation can run on a fresh handle before
its OS input and output queues are flushed. -/
theorem openPort_flushed_first (cmds : List Cmd) (s : ShellState) :
    ((runShell s cmds).1.foldl flushScanStep ⟨none, true⟩).ok = true :=
  flushScan_run cmds s
